import Mathlib

/-!
Shallow embedding of the DSP core of the hamberg sound-effect generator
(src/audio/generate_sfx.py and src/scripts/generate_snow_footstep.py).

Signals are modelled as lists of exact rationals where the source only
performs field operations and rounding, and as lists of reals where the
source uses transcendental functions (tanh, sqrt, FFT exponentials).
The unseeded random source (np.random.randn) is modelled as an explicit
stream of sample values passed in as a parameter.
-/

namespace Sfx

/-- The fixed sample rate, SAMPLE_RATE = 44100 in the source. -/
def SAMPLE_RATE : ℚ := 44100

/-- Truncation toward zero, the semantics of the Python builtin int()
applied to a real value; the source uses it to convert sample counts. -/
def pyTrunc (q : ℚ) : ℤ := if 0 ≤ q then ⌊q⌋ else ⌈q⌉

/-- Round half to even, the semantics of np.round on a scalar. -/
def roundHalfEven (q : ℚ) : ℤ :=
  if q - ⌊q⌋ < 1/2 then ⌊q⌋
  else if 1/2 < q - ⌊q⌋ then ⌊q⌋ + 1
  else if ⌊q⌋ % 2 = 0 then ⌊q⌋ else ⌊q⌋ + 1

/-- np.max(np.abs(l)) for a non-empty signal l.  On the empty signal
np.max raises ValueError; that error path is modelled explicitly by
normalize below, which applies maxAbs only to non-empty signals, so the
value of this function at [] (taken as 0) never stands for a value the
program computes.  As a bound in specifications it is used on arbitrary
signals. -/
def maxAbs (l : List ℚ) : ℚ := (l.map (fun v => |v|)).foldr max 0

/-- normalize(audio, peak) from generate_sfx.py: scale so the peak
absolute sample becomes peak, returning the signal unchanged when its
maximum absolute value is not positive.  On the empty signal the call
np.max(np.abs(audio)) raises ValueError, modelled as none. -/
def normalize (x : List ℚ) (peak : ℚ) : Option (List ℚ) :=
  if x = [] then none
  else if 0 < maxAbs x then some (x.map (fun v => v * (peak / maxAbs x))) else some x

/-- np.linspace(a, b, n): n evenly spaced points from a to b inclusive;
for n = 1 numpy returns the single point a. -/
def linspace (a b : ℚ) (n : ℕ) : List ℚ :=
  if n = 1 then [a]
  else (List.range n).map (fun i : ℕ => a + (b - a) * (i : ℚ) / ((n : ℚ) - 1))

/-- The fade-in half of fade(): multiply the first k samples by
linspace 0 1 k, guarded by 0 < k and k < length. -/
def fadeIn (x : List ℚ) (k : ℕ) : List ℚ :=
  if 0 < k ∧ k < x.length then
    List.zipWith (fun v w => v * w) (x.take k) (linspace 0 1 k) ++ x.drop k
  else x

/-- The fade-out half of fade(): multiply the last k samples by
linspace 1 0 k, guarded by 0 < k and k < length. -/
def fadeOut (x : List ℚ) (k : ℕ) : List ℚ :=
  if 0 < k ∧ k < x.length then
    x.take (x.length - k) ++
      List.zipWith (fun v w => v * w) (x.drop (x.length - k)) (linspace 1 0 k)
  else x

/-- fade(audio, fade_in_ms, fade_out_ms) from generate_sfx.py; the two
sides are applied sequentially, fade-in first, as in the source.
A negative millisecond value yields a negative sample count in the
source, which fails the positivity guard exactly as toNat = 0 does. -/
def fade (x : List ℚ) (fade_in_ms fade_out_ms : ℚ) : List ℚ :=
  fadeOut (fadeIn x (pyTrunc (SAMPLE_RATE * fade_in_ms / 1000)).toNat)
    (pyTrunc (SAMPLE_RATE * fade_out_ms / 1000)).toNat

/-- bitcrush(audio, bits) from generate_sfx.py: np.round(audio * levels)
divided by levels, with levels = 2 ^ bits. -/
def bitcrush (x : List ℚ) (bits : ℕ) : List ℚ :=
  x.map (fun v => (roundHalfEven (v * 2 ^ bits) : ℚ) / 2 ^ bits)

/-- One iteration of the reverb_simple loop body:
output[i] += output[i - delay_samples] * decay. -/
def reverbStep (decay : ℚ) (D : ℕ) (out : List ℚ) (i : ℕ) : List ℚ :=
  out.set i (out.getD i 0 + out.getD (i - D) 0 * decay)

/-- The whole reverb_simple loop: for i in range(D, len(x)) applied to
a copy of x, in increasing index order. -/
def reverbOut (x : List ℚ) (decay : ℚ) (D : ℕ) : List ℚ :=
  (List.range' D (x.length - D)).foldl (reverbStep decay D) x

/-- reverb_simple(audio, decay, delay_ms) from generate_sfx.py: the loop
for i in range(delay_samples, len(audio)) run in increasing index order
on a copy of the input.  A negative delay_samples makes the source index
the ndarray out of bounds (IndexError) before the loop completes, which
is modelled as none. -/
def reverb_simple (x : List ℚ) (decay : ℚ) (delay_ms : ℚ) : Option (List ℚ) :=
  if pyTrunc (SAMPLE_RATE * delay_ms / 1000) < 0 then none
  else some (reverbOut x decay (pyTrunc (SAMPLE_RATE * delay_ms / 1000)).toNat)

/-- distortion(audio, amount) from generate_sfx.py: np.tanh(audio * amount). -/
noncomputable def distortion (x : List ℝ) (amount : ℝ) : List ℝ :=
  x.map (fun v => Real.tanh (v * amount))

/-- np.cumsum: inclusive running sums, preserving length. -/
def cumsum (l : List ℝ) : List ℝ := (l.scanl (fun a b => a + b) 0).tail

/-- Bin k of np.fft.rfft(x): the k-th discrete-Fourier coefficient
of the signal x. -/
noncomputable def rfftBin (x : List ℝ) (k : ℕ) : ℂ :=
  ∑ j ∈ Finset.range x.length,
    (x.getD j 0 : ℂ) *
      Complex.exp (-2 * (Real.pi : ℂ) * Complex.I * (j : ℂ) * (k : ℂ) / (x.length : ℂ))

/-- The full n-point spectrum that np.fft.irfft reconstructs from a
half spectrum X by Hermitian symmetry. -/
noncomputable def fullSpectrum (X : List ℂ) (n k : ℕ) : ℂ :=
  if k ≤ n / 2 then X.getD k 0 else (starRingEnd ℂ) (X.getD (n - k) 0)

/-- np.fft.irfft(X, n): inverse discrete Fourier transform of the
Hermitian extension of the half spectrum X, real part, length n. -/
noncomputable def irfft (X : List ℂ) (n : ℕ) : List ℝ :=
  (List.range n).map (fun j : ℕ =>
    (∑ k ∈ Finset.range n,
      fullSpectrum X n k *
        Complex.exp (2 * (Real.pi : ℂ) * Complex.I * (j : ℂ) * (k : ℂ) / (n : ℂ))).re /
      (n : ℝ))

/-- The spectral scale used by noise(duration, color=pink) in
generate_sfx.py: freqs = rfftfreq(n, 1/44100) with freqs[0] set to 1
to avoid division by zero, then 1 / sqrt(freqs); the zero-frequency
bin keeps scale 1 / sqrt 1 = 1. -/
noncomputable def pinkFilterSfx (n k : ℕ) : ℝ :=
  1 / Real.sqrt (if k = 0 then 1 else (k : ℝ) * 44100 / (n : ℝ))

/-- The spectral scale used by generate_snow_footstep.py: same as
pinkFilterSfx except that pink_filter[0] is then overwritten to 0. -/
noncomputable def pinkFilterSnow (n k : ℕ) : ℝ :=
  if k = 0 then 0 else 1 / Real.sqrt ((k : ℝ) * 44100 / (n : ℝ))

/-- The pink-noise shaping of generate_sfx.py applied to a white-noise
buffer w: irfft(rfft(w) * pink_filter, len(w)). -/
noncomputable def pinkNoiseSfx (w : List ℝ) : List ℝ :=
  irfft ((List.range (w.length / 2 + 1)).map
    (fun k => rfftBin w k * (pinkFilterSfx w.length k : ℂ))) w.length

/-- The pink-noise shaping of generate_snow_footstep.py applied to a
white-noise buffer w. -/
noncomputable def pinkNoiseSnow (w : List ℝ) : List ℝ :=
  irfft ((List.range (w.length / 2 + 1)).map
    (fun k => rfftBin w k * (pinkFilterSnow w.length k : ℂ))) w.length

/-- noise(duration_s, color) from generate_sfx.py, with the unseeded
np.random.randn stream modelled by the explicit sample stream g. -/
noncomputable def noise (duration_s : ℚ) (color : String) (g : ℕ → ℝ) : List ℝ :=
  let samples := (pyTrunc (SAMPLE_RATE * duration_s)).toNat
  let white := (List.range samples).map g
  if color = "white" then white
  else if color = "pink" then pinkNoiseSfx white
  else if color = "brown" then (cumsum white).map (fun v => v / 100)
  else white

/-! Helper lemmas. -/

theorem roundHalfEven_intCast (m : ℤ) : roundHalfEven (m : ℚ) = m := by
  have h : ⌊(m : ℚ)⌋ = m := Int.floor_intCast m
  simp [roundHalfEven, h]

theorem length_irfft (X : List ℂ) (n : ℕ) : (irfft X n).length = n := by
  rw [irfft, List.length_map]
  exact List.length_range n

theorem length_cumsum (l : List ℝ) : (cumsum l).length = l.length := by
  simp [cumsum, List.length_scanl]

theorem length_pinkNoiseSfx (w : List ℝ) : (pinkNoiseSfx w).length = w.length := by
  simp [pinkNoiseSfx, length_irfft]

theorem abs_tanh_lt_one (t : ℝ) : |Real.tanh t| < 1 := by
  rw [Real.tanh_eq_sinh_div_cosh, abs_div, abs_of_pos (Real.cosh_pos t),
    div_lt_one (Real.cosh_pos t)]
  have h1 := Real.cosh_pos t
  have h2 := Real.cosh_sq_sub_sinh_sq t
  nlinarith [abs_nonneg (Real.sinh t), sq_abs (Real.sinh t)]

/-! Claim C6 — bitcrush is idempotent. -/

/-- C6: for every signal x and every bit depth b,
bitcrush (bitcrush x b) b = bitcrush x b. -/
theorem bitcrush_idempotent (x : List ℚ) (b : ℕ) :
    bitcrush (bitcrush x b) b = bitcrush x b := by
  have hpow : ((2 : ℚ) ^ b) ≠ 0 := by positivity
  simp only [bitcrush, List.map_map]
  apply List.map_congr_left
  intro a _
  simp only [Function.comp]
  rw [div_mul_cancel₀ _ hpow, roundHalfEven_intCast]

/-! Claim C10 — bitcrush output lies on the grid of step 2 ^ (-b). -/

/-- C10: every sample of bitcrush x b is an integer multiple of 2 ^ (-b):
it equals m / 2 ^ b for some integer m. -/
theorem bitcrush_grid (x : List ℚ) (b : ℕ) :
    ∀ y ∈ bitcrush x b, ∃ m : ℤ, y = (m : ℚ) / 2 ^ b := by
  intro y hy
  rw [bitcrush, List.mem_map] at hy
  obtain ⟨v, -, rfl⟩ := hy
  exact ⟨roundHalfEven (v * 2 ^ b), rfl⟩

/-- Witness for C10 at the concrete input [1/3] with b = 2:
bitcrush [1/3] 2 = [1/4] and 1/4 is on the grid. -/
theorem bitcrush_grid_witness :
    ((1/4 : ℚ) ∈ bitcrush [1/3] 2 ∧ ∃ m : ℤ, (1/4 : ℚ) = (m : ℚ) / 2 ^ 2) := by
  have hmem : (1/4 : ℚ) ∈ bitcrush [1/3] 2 := by
    have hr : roundHalfEven ((4 : ℚ)/3) = 1 := by
      rw [roundHalfEven]
      norm_num
    norm_num [bitcrush, hr]
  exact ⟨hmem, bitcrush_grid [1/3] 2 (1/4) hmem⟩

/-! Claim C5 — tanh distortion output lies strictly inside (-1, 1). -/

/-- C5: for every signal and every amount > 0, each sample of
distortion x amount lies strictly between -1 and 1. -/
theorem distortion_bounded (x : List ℝ) (amount : ℝ) (ha : 0 < amount) :
    ∀ y ∈ distortion x amount, -1 < y ∧ y < 1 := by
  intro y hy
  rw [distortion, List.mem_map] at hy
  obtain ⟨v, -, rfl⟩ := hy
  exact abs_lt.mp (abs_tanh_lt_one (v * amount))

/-- Witness for C5 at the concrete input [0] with amount = 2:
distortion [0] 2 = [tanh 0] = [0] and 0 lies strictly inside (-1, 1). -/
theorem distortion_bounded_witness :
    (0 : ℝ) < 2 ∧ (0 : ℝ) ∈ distortion [0] 2 ∧ (-1 < (0 : ℝ) ∧ (0 : ℝ) < 1) := by
  have hm : (0 : ℝ) ∈ distortion [0] 2 := by simp [distortion]
  exact ⟨by norm_num, hm, distortion_bounded [0] 2 (by norm_num) 0 hm⟩

/-! Claim C1 — length of noise buffers. -/

/-- C1 counterexample: at duration 27/441000 the white-noise buffer has
length int(44100 * 27/441000) = int(2.7) = 2, while round gives 3; the
claimed length round(duration * rate) is wrong for the code. -/
theorem noise_length_not_round :
    (noise (27/441000) "white" (fun _ => 0)).length ≠
      (round ((27/441000 : ℚ) * 44100)).toNat := by
  have hlen : (noise (27/441000) "white" (fun _ => 0)).length = 2 := by
    have ht : pyTrunc (SAMPLE_RATE * (27/441000)) = 2 := by
      have : (SAMPLE_RATE : ℚ) * (27/441000) = 27/10 := by norm_num [SAMPLE_RATE]
      rw [pyTrunc, this, if_pos (by norm_num)]
      norm_num
    simp [noise, ht]
  have hround : round ((27/441000 : ℚ) * 44100) = 3 := by
    rw [round_eq]
    norm_num
  rw [hlen, hround]
  decide

/-- C1 (amended): for every duration d > 0, every color string and every
random stream, noise d color g has length exactly the truncation
(Python int) of 44100 * d, i.e. its floor — not its rounding. -/
theorem noise_length_eq_trunc (d : ℚ) (c : String) (g : ℕ → ℝ) (hd : 0 < d) :
    (noise d c g).length = (⌊SAMPLE_RATE * d⌋).toNat := by
  have ht : pyTrunc (SAMPLE_RATE * d) = ⌊SAMPLE_RATE * d⌋ := by
    have hnn : (0 : ℚ) ≤ SAMPLE_RATE * d := by
      rw [SAMPLE_RATE]
      positivity
    rw [pyTrunc, if_pos hnn]
  rw [noise, ht]
  by_cases hw : c = "white"
  · simp [hw]
  · by_cases hp : c = "pink"
    · simp [hw, hp, length_pinkNoiseSfx]
    · by_cases hb : c = "brown"
      · simp [hw, hp, hb, length_cumsum]
      · simp [hw, hp, hb]

/-- Witness for C1 at d = 1/44100 (one sample), color pink, zero stream. -/
theorem noise_length_eq_trunc_witness :
    (0 : ℚ) < 1/44100 ∧
      (noise (1/44100) "pink" (fun _ => 0)).length = (⌊SAMPLE_RATE * (1/44100)⌋).toNat :=
  ⟨by norm_num, noise_length_eq_trunc (1/44100) "pink" (fun _ => 0) (by norm_num)⟩

/-! Helper lemmas about maxAbs. -/

theorem maxAbs_cons (a : ℚ) (t : List ℚ) : maxAbs (a :: t) = max |a| (maxAbs t) := rfl

theorem maxAbs_nonneg (l : List ℚ) : 0 ≤ maxAbs l := by
  induction l with
  | nil => simp [maxAbs]
  | cons a t ih => rw [maxAbs_cons]; exact le_max_of_le_right ih

theorem abs_le_maxAbs (l : List ℚ) (y : ℚ) (hy : y ∈ l) : |y| ≤ maxAbs l := by
  induction l with
  | nil => cases hy
  | cons a t ih =>
    rw [maxAbs_cons]
    rcases List.mem_cons.mp hy with h | h
    · exact h ▸ le_max_left _ _
    · exact le_max_of_le_right (ih h)

theorem getD_abs_le_maxAbs (l : List ℚ) (i : ℕ) : |l.getD i 0| ≤ maxAbs l := by
  by_cases h : i < l.length
  · rw [List.getD_eq_getElem _ _ h]
    exact abs_le_maxAbs l _ (List.getElem_mem h)
  · rw [List.getD_eq_default _ _ (le_of_not_lt h)]
    simpa using maxAbs_nonneg l

theorem maxAbs_map_mul (l : List ℚ) (c : ℚ) :
    maxAbs (l.map (fun v => v * c)) = maxAbs l * |c| := by
  induction l with
  | nil => simp [maxAbs]
  | cons a t ih =>
    rw [List.map_cons, maxAbs_cons, maxAbs_cons, ih, abs_mul,
      max_mul_of_nonneg _ _ (abs_nonneg c)]

theorem maxAbs_of_all_zero (l : List ℚ) (h : ∀ y ∈ l, y = 0) : maxAbs l = 0 := by
  induction l with
  | nil => rfl
  | cons a t ih =>
    rw [maxAbs_cons, h a (List.mem_cons_self a t), ih fun y hy => h y (List.mem_cons_of_mem a hy)]
    simp

/-! Claim C3 — normalize scales the peak to the requested value. -/

/-- C3 counterexample: with negative peak -1 the claim fails: the signal
[2] has a non-zero sample yet normalize [2] (-1) = some [-1], whose
maximum absolute sample is 1, not -1. -/
theorem normalize_neg_peak_cex :
    (2 : ℚ) ∈ ([2] : List ℚ) ∧ (2 : ℚ) ≠ 0 ∧
      normalize [2] (-1) = some [-1] ∧ maxAbs [(-1 : ℚ)] ≠ -1 := by
  have h1 : maxAbs [(2 : ℚ)] = 2 := by
    rw [maxAbs_cons]
    norm_num [maxAbs]
  have h2 : normalize [(2 : ℚ)] (-1) = some [-1] := by
    rw [normalize, if_neg (by simp), if_pos (by rw [h1]; norm_num), h1]
    norm_num
  refine ⟨List.mem_cons_self 2 [], by norm_num, h2, ?_⟩
  rw [maxAbs_cons]
  norm_num [maxAbs]

/-- C3 (amended to nonnegative peaks and to calls that return): for
0 <= p, whenever normalize x p returns a signal (it raises ValueError,
modelled as none, on the empty buffer): if x has a non-zero sample then
the maximum absolute sample of the output is exactly p, and if x is
entirely zero then the output is x unchanged. -/
theorem normalize_peak_spec (x : List ℚ) (p : ℚ) (hp : 0 ≤ p) (out : List ℚ)
    (hout : normalize x p = some out) :
    ((∃ y ∈ x, y ≠ 0) → maxAbs out = p) ∧ ((∀ y ∈ x, y = 0) → out = x) := by
  rw [normalize] at hout
  by_cases hnil : x = []
  · rw [if_pos hnil] at hout
    cases hout
  · rw [if_neg hnil] at hout
    by_cases hM : 0 < maxAbs x
    · rw [if_pos hM, Option.some_inj] at hout
      subst hout
      constructor
      · rintro ⟨y, hy, hy0⟩
        rw [maxAbs_map_mul, abs_of_nonneg (div_nonneg hp hM.le),
          mul_comm, div_mul_cancel₀ _ hM.ne']
      · intro h
        rw [maxAbs_of_all_zero x h] at hM
        exact absurd hM (lt_irrefl 0)
    · rw [if_neg hM, Option.some_inj] at hout
      subst hout
      refine ⟨fun hex => ?_, fun _ => rfl⟩
      obtain ⟨y, hy, hy0⟩ := hex
      exact absurd (lt_of_lt_of_le (abs_pos.mpr hy0) (abs_le_maxAbs x y hy)) hM

/-- Witness for C3 at x = [3, -4], p = 9/10: the call returns
some [27/40, -9/10], whose maximum absolute sample is 9/10. -/
theorem normalize_peak_spec_witness :
    (0 : ℚ) ≤ 9/10 ∧ normalize [3, -4] (9/10) = some [27/40, -9/10] ∧
      (∃ y ∈ ([3, -4] : List ℚ), y ≠ 0) ∧ maxAbs [27/40, -9/10] = 9/10 := by
  have hM : maxAbs [(3 : ℚ), -4] = 4 := by
    rw [maxAbs_cons, maxAbs_cons]
    norm_num [maxAbs]
  have hsome : normalize [3, -4] (9/10) = some [27/40, -9/10] := by
    rw [normalize, if_neg (by simp), if_pos (by rw [hM]; norm_num), hM]
    norm_num
  have hex : ∃ y ∈ ([3, -4] : List ℚ), y ≠ 0 := ⟨3, by norm_num, by norm_num⟩
  exact ⟨by norm_num, hsome, hex,
    (normalize_peak_spec [3, -4] (9/10) (by norm_num) [27/40, -9/10] hsome).1 hex⟩

/-! Helper lemmas about linspace, zipWith indexing, and the fades. -/

theorem getD_map_range {α : Type _} (d : α) (f : ℕ → α) {n i : ℕ} (h : i < n) :
    ((List.range n).map f).getD i d = f i := by
  rw [List.getD_eq_getElem _ _ (by simpa using h)]
  simp

theorem getD_zipWith_mul (a b : List ℚ) (i : ℕ) (hia : i < a.length) (hib : i < b.length) :
    (List.zipWith (fun v w => v * w) a b).getD i 0 = a.getD i 0 * b.getD i 0 := by
  rw [List.getD_eq_getElem _ _ (by simp [hia, hib]), List.getElem_zipWith,
    List.getD_eq_getElem _ _ hia, List.getD_eq_getElem _ _ hib]

theorem length_linspace (a b : ℚ) (n : ℕ) : (linspace a b n).length = n := by
  rw [linspace]
  split
  · simp [*]
  · simp

theorem linspace_getD_zero (a b : ℚ) (n : ℕ) (hn : 0 < n) :
    (linspace a b n).getD 0 0 = a := by
  rw [linspace]
  split
  · rfl
  · rw [getD_map_range _ _ hn]
    simp

theorem linspace_getD_last (a b : ℚ) (n : ℕ) (hn : 2 ≤ n) :
    (linspace a b n).getD (n - 1) 0 = b := by
  rw [linspace, if_neg (by omega), getD_map_range _ _ (by omega)]
  have hcast : ((n - 1 : ℕ) : ℚ) = (n : ℚ) - 1 := by
    push_cast [Nat.cast_sub (by omega : 1 ≤ n)]
    ring
  have hne : (n : ℚ) - 1 ≠ 0 := by
    have : (2 : ℚ) ≤ (n : ℚ) := by exact_mod_cast hn
    linarith
  rw [hcast, mul_div_assoc, div_self hne]
  ring

theorem length_fadeIn (x : List ℚ) (k : ℕ) : (fadeIn x k).length = x.length := by
  rw [fadeIn]
  split
  · rename_i h
    rw [List.length_append, List.length_zipWith, List.length_take, List.length_drop,
      length_linspace]
    omega
  · rfl

theorem length_fadeOut (x : List ℚ) (k : ℕ) : (fadeOut x k).length = x.length := by
  rw [fadeOut]
  split
  · rename_i h
    rw [List.length_append, List.length_zipWith, List.length_take, List.length_drop,
      length_linspace]
    omega
  · rfl

theorem fadeIn_getD_zero (x : List ℚ) (k : ℕ) (hk : 0 < k) (hkl : k < x.length) :
    (fadeIn x k).getD 0 0 = 0 := by
  rw [fadeIn, if_pos ⟨hk, hkl⟩]
  rw [List.getD_append _ _ _ _ (by
    rw [List.length_zipWith, List.length_take, length_linspace]
    omega)]
  rw [getD_zipWith_mul _ _ _ (by rw [List.length_take]; omega)
    (by rw [length_linspace]; omega)]
  rw [linspace_getD_zero _ _ _ hk]
  ring

theorem fadeOut_getD_zero (y : List ℚ) (k : ℕ) :
    (fadeOut y k).getD 0 0 = y.getD 0 0 := by
  rw [fadeOut]
  split
  · rename_i h
    rw [List.getD_append _ _ _ _ (by rw [List.length_take]; omega)]
    rw [List.getD_eq_getElem _ _ (by rw [List.length_take]; omega),
      List.getElem_take, List.getD_eq_getElem _ _ (by omega)]
  · rfl

theorem fadeOut_getD_last (y : List ℚ) (k : ℕ) (hk : 2 ≤ k) (hkl : k < y.length) :
    (fadeOut y k).getD (y.length - 1) 0 = 0 := by
  rw [fadeOut, if_pos ⟨by omega, hkl⟩]
  rw [List.getD_append_right _ _ _ _ (by rw [List.length_take]; omega)]
  rw [List.length_take]
  have hlt : y.length - 1 - (y.length - k) ⊓ y.length = k - 1 := by omega
  rw [hlt]
  rw [getD_zipWith_mul _ _ _ (by rw [List.length_drop]; omega)
    (by rw [length_linspace]; omega)]
  rw [linspace_getD_last _ _ _ hk]
  ring

/-! Claim C7 — fades zero the ends of the signal. -/

/-- C7 counterexample: both directions of the claim fail as stated.
With fade-in duration 1/100 ms > 0 the fade-in sample count is
int(0.441) = 0, so the first sample of [1] stays 1; with fade-out
duration 1/44 ms > 0 the fade-out sample count is 1 and
np.linspace(1, 0, 1) = [1], so the last sample of [5, 7] stays 7. -/
theorem fade_ends_cex :
    (0 : ℚ) < 1/100 ∧ (fade [1] (1/100) 0).getD 0 0 = 1 ∧
      (0 : ℚ) < 1/44 ∧ (fade [5, 7] 0 (1/44)).getD 1 0 = 7 := by
  refine ⟨by norm_num, ?_, by norm_num, ?_⟩
  · have hin : (pyTrunc (SAMPLE_RATE * (1/100) / 1000)).toNat = 0 := by
      rw [SAMPLE_RATE, pyTrunc, if_pos (by norm_num)]
      norm_num
    have hout : (pyTrunc (SAMPLE_RATE * 0 / 1000)).toNat = 0 := by
      rw [SAMPLE_RATE, pyTrunc, if_pos (by norm_num)]
      norm_num
    rw [fade, hin, hout]
    rw [fadeIn, if_neg (by norm_num), fadeOut, if_neg (by norm_num)]
    rfl
  · have hin : (pyTrunc (SAMPLE_RATE * 0 / 1000)).toNat = 0 := by
      rw [SAMPLE_RATE, pyTrunc, if_pos (by norm_num)]
      norm_num
    have hout : (pyTrunc (SAMPLE_RATE * (1/44) / 1000)).toNat = 1 := by
      rw [SAMPLE_RATE, pyTrunc, if_pos (by norm_num)]
      have : ⌊(44100 : ℚ) * (1/44) / 1000⌋ = 1 := by norm_num
      rw [this]
      rfl
    rw [fade, hin, hout]
    rw [fadeIn, if_neg (by norm_num), fadeOut, if_pos (by norm_num)]
    norm_num [linspace]

/-- C7 (amended): the first sample of fade x a b is 0 whenever the
fade-in sample count int(44100 * a / 1000) lies strictly between 0 and
the signal length, and the last sample is 0 whenever the fade-out
sample count lies strictly between 1 and the signal length (a one-sample
fade-out multiplies the last sample by linspace(1,0,1) = [1] and leaves
it unchanged). -/
theorem fade_ends_spec (x : List ℚ) (a b : ℚ) :
    (0 < (pyTrunc (SAMPLE_RATE * a / 1000)).toNat →
      (pyTrunc (SAMPLE_RATE * a / 1000)).toNat < x.length →
      (fade x a b).getD 0 0 = 0) ∧
    (2 ≤ (pyTrunc (SAMPLE_RATE * b / 1000)).toNat →
      (pyTrunc (SAMPLE_RATE * b / 1000)).toNat < x.length →
      (fade x a b).getD (x.length - 1) 0 = 0) := by
  constructor
  · intro h1 h2
    rw [fade, fadeOut_getD_zero, fadeIn_getD_zero x _ h1 h2]
  · intro h1 h2
    rw [fade]
    have hlen : (fadeIn x (pyTrunc (SAMPLE_RATE * a / 1000)).toNat).length = x.length :=
      length_fadeIn x _
    rw [← hlen]
    exact fadeOut_getD_last _ _ h1 (by rw [hlen]; exact h2)

/-- Witness for C7 at x = [5, 6, 7] with a one-sample fade-in and a
two-sample fade-out: both ends become 0. -/
theorem fade_ends_spec_witness :
    (0 < (pyTrunc (SAMPLE_RATE * (1000/44100) / 1000)).toNat ∧
      (pyTrunc (SAMPLE_RATE * (1000/44100) / 1000)).toNat < ([5, 6, 7] : List ℚ).length) ∧
    (2 ≤ (pyTrunc (SAMPLE_RATE * (2000/44100) / 1000)).toNat ∧
      (pyTrunc (SAMPLE_RATE * (2000/44100) / 1000)).toNat < ([5, 6, 7] : List ℚ).length) ∧
    (fade [5, 6, 7] (1000/44100) (2000/44100)).getD 0 0 = 0 ∧
    (fade [5, 6, 7] (1000/44100) (2000/44100)).getD 2 0 = 0 := by
  have hin : (pyTrunc (SAMPLE_RATE * (1000/44100) / 1000)).toNat = 1 := by
    rw [SAMPLE_RATE, pyTrunc, if_pos (by norm_num)]
    have : ⌊(44100 : ℚ) * (1000/44100) / 1000⌋ = 1 := by norm_num
    rw [this]
    rfl
  have hout : (pyTrunc (SAMPLE_RATE * (2000/44100) / 1000)).toNat = 2 := by
    rw [SAMPLE_RATE, pyTrunc, if_pos (by norm_num)]
    have : ⌊(44100 : ℚ) * (2000/44100) / 1000⌋ = 2 := by norm_num
    rw [this]
    rfl
  have hs := fade_ends_spec [5, 6, 7] (1000/44100) (2000/44100)
  refine ⟨⟨by rw [hin]; norm_num, by rw [hin]; norm_num⟩,
    ⟨by rw [hout], by rw [hout]; norm_num⟩, hs.1 (by rw [hin]; norm_num) (by rw [hin]; norm_num),
    ?_⟩
  have := hs.2 (by rw [hout]) (by rw [hout]; norm_num)
  simpa using this

/-! Helper lemmas about list updates and the reverb fold. -/

theorem getD_set_ne (l : List ℚ) (i j : ℕ) (a : ℚ) (h : i ≠ j) :
    (l.set i a).getD j 0 = l.getD j 0 := by
  simp [List.getD_eq_getD_get?, List.get?_eq_getElem?, List.getElem?_set_ne h]

theorem getD_set_self (l : List ℚ) (i : ℕ) (a : ℚ) (h : i < l.length) :
    (l.set i a).getD i 0 = a := by
  simp [List.getD_eq_getD_get?, List.get?_eq_getElem?, List.getElem?_set_self, h]

theorem set_getD_self (l : List ℚ) (i : ℕ) : l.set i (l.getD i 0) = l := by
  induction l generalizing i with
  | nil => rfl
  | cons a t ih =>
    cases i with
    | zero => rfl
    | succ n => rw [List.getD_cons_succ, List.set_cons_succ, ih n]

theorem length_reverbFold (decay : ℚ) (D : ℕ) (L : List ℕ) (x : List ℚ) :
    (L.foldl (reverbStep decay D) x).length = x.length := by
  induction L generalizing x with
  | nil => rfl
  | cons i t ih => rw [List.foldl_cons, ih, reverbStep, List.length_set]

theorem reverbFold_getD_untouched (decay : ℚ) (D : ℕ) (L : List ℕ) (x : List ℚ) (j : ℕ)
    (h : ∀ a ∈ L, a ≠ j) : (L.foldl (reverbStep decay D) x).getD j 0 = x.getD j 0 := by
  induction L generalizing x with
  | nil => rfl
  | cons i t ih =>
    rw [List.foldl_cons, ih _ fun a ha => h a (List.mem_cons_of_mem i ha)]
    exact getD_set_ne _ _ _ _ (h i (List.mem_cons_self i t))

theorem length_reverbOut (x : List ℚ) (decay : ℚ) (D : ℕ) :
    (reverbOut x decay D).length = x.length := length_reverbFold _ _ _ _

theorem reverbOut_getD_front (x : List ℚ) (decay : ℚ) (D i : ℕ) (h : i < D) :
    (reverbOut x decay D).getD i 0 = x.getD i 0 := by
  apply reverbFold_getD_untouched
  intro a ha
  rw [List.mem_range'_1] at ha
  omega

/-- The defining recurrence of the in-place loop: for D <= i < len(x)
the final output at i is x[i] plus decay times the value read at
i - D, which is the final output there when D >= 1 but the original
input sample x[i] itself when D = 0 (the loop reads the cell it is
about to overwrite). -/
theorem reverbOut_getD (x : List ℚ) (decay : ℚ) (D i : ℕ)
    (hD : D ≤ i) (hi : i < x.length) :
    (reverbOut x decay D).getD i 0 =
      x.getD i 0 +
        (if D = 0 then x.getD i 0 else (reverbOut x decay D).getD (i - D) 0) * decay := by
  have h1 : List.range' D (i - D) ++ List.range' (D + (i - D)) (x.length - i) =
      List.range' D ((x.length - i) + (i - D)) := List.range'_append_1 ..
  have h2 : D + (i - D) = i := by omega
  have h3 : (x.length - i) + (i - D) = x.length - D := by omega
  have h4 : x.length - i = (x.length - i - 1) + 1 := by omega
  have h5 : List.range' i (x.length - i) = i :: List.range' (i + 1) (x.length - i - 1) := by
    conv_lhs => rw [h4]
    rw [List.range'_succ]
  rw [h2, h3] at h1
  have hsplit : List.range' D (x.length - D) =
      List.range' D (i - D) ++ i :: List.range' (i + 1) (x.length - i - 1) := by
    rw [← h1, h5]
  have hmid_i : (List.foldl (reverbStep decay D) x (List.range' D (i - D))).getD i 0
      = x.getD i 0 := by
    apply reverbFold_getD_untouched
    intro a ha
    rw [List.mem_range'_1] at ha
    omega
  have hmidlen : (List.foldl (reverbStep decay D) x (List.range' D (i - D))).length
      = x.length := length_reverbFold _ _ _ _
  have hstep_i :
      (reverbStep decay D (List.foldl (reverbStep decay D) x (List.range' D (i - D))) i).getD
          i 0
        = x.getD i 0 +
          (List.foldl (reverbStep decay D) x (List.range' D (i - D))).getD (i - D) 0 *
            decay := by
    rw [reverbStep, getD_set_self _ _ _ (by rw [hmidlen]; exact hi), hmid_i]
  have huntouched : ∀ j, j ≤ i →
      (List.foldl (reverbStep decay D)
        (reverbStep decay D (List.foldl (reverbStep decay D) x (List.range' D (i - D))) i)
        (List.range' (i + 1) (x.length - i - 1))).getD j 0 =
      (reverbStep decay D (List.foldl (reverbStep decay D) x (List.range' D (i - D))) i).getD
          j 0 := by
    intro j hj
    apply reverbFold_getD_untouched
    intro a ha
    rw [List.mem_range'_1] at ha
    omega
  rw [reverbOut, hsplit, List.foldl_append, List.foldl_cons]
  rw [huntouched i le_rfl, hstep_i]
  by_cases hD0 : D = 0
  · rw [if_pos hD0]
    subst hD0
    simp only [Nat.sub_zero] at hmid_i ⊢
    rw [hmid_i]
  · rw [if_neg hD0]
    have hstep_ne :
        (reverbStep decay D (List.foldl (reverbStep decay D) x (List.range' D (i - D)))
            i).getD (i - D) 0
          = (List.foldl (reverbStep decay D) x (List.range' D (i - D))).getD (i - D) 0 := by
      rw [reverbStep]
      exact getD_set_ne _ _ _ _ (by omega)
    rw [huntouched (i - D) (by omega), hstep_ne]

theorem reverbFold_zero_decay (D : ℕ) (L : List ℕ) (x : List ℚ) :
    L.foldl (reverbStep 0 D) x = x := by
  induction L generalizing x with
  | nil => rfl
  | cons i t ih =>
    have hstep : reverbStep 0 D x i = x := by
      rw [reverbStep, mul_zero, add_zero, set_getD_self]
    rw [List.foldl_cons, hstep, ih]

/-! Claim C2 — the code runs the comb recurrence with decay >= 1. -/

/-- C2 (code_bug evidence): with decay = 2 and a one-sample delay, the
code happily runs the recurrence and produces geometric growth
[1, 2, 4] from the impulse [1, 0, 0]; nothing rejects or clamps the
out-of-range decay before the loop. -/
theorem reverb_runs_with_large_decay :
    reverb_simple [1, 0, 0] 2 (1000/44100) = some [1, 2, 4] := by
  have hDz : pyTrunc (SAMPLE_RATE * (1000/44100) / 1000) = 1 := by
    rw [SAMPLE_RATE, pyTrunc, if_pos (by norm_num)]
    have : ⌊(44100 : ℚ) * (1000/44100) / 1000⌋ = 1 := by norm_num
    rw [this]
  rw [reverb_simple, hDz, if_neg (by norm_num)]
  norm_num [reverbOut, List.range', reverbStep]

/-! Claim C4 — the claimed recurrence characterizes the output. -/

/-- C4 counterexample: with delay 1/100 ms the delay converts to 0
samples; on the signal [1] with decay 1 the code produces [2], and 2
does not satisfy the claimed equation out[0] = in[0] + decay * out[0]
(which would demand 2 = 1 + 2). -/
theorem reverb_recurrence_cex :
    reverb_simple [1] 1 (1/100) = some [2] ∧ ¬((2 : ℚ) = 1 + 1 * 2) := by
  constructor
  · have hDz : pyTrunc (SAMPLE_RATE * (1/100) / 1000) = 0 := by
      rw [SAMPLE_RATE, pyTrunc, if_pos (by norm_num)]
      norm_num
    rw [reverb_simple, hDz, if_neg (by norm_num)]
    norm_num [reverbOut, List.range', reverbStep]
  · norm_num

/-- C4 (amended): whenever reverb_simple returns a signal, the samples
before delaySamples equal the input; when delaySamples >= 1 every later
sample obeys out[i] = in[i] + out[i - delaySamples] * decay (for
delaySamples = 0 the loop instead yields in[i] * (1 + decay)); and with
decay = 0 the output equals the input for every delay. -/
theorem reverb_recurrence_spec (x : List ℚ) (decay delay_ms : ℚ) (out : List ℚ)
    (hout : reverb_simple x decay delay_ms = some out) :
    (∀ i, i < (pyTrunc (SAMPLE_RATE * delay_ms / 1000)).toNat →
      out.getD i 0 = x.getD i 0) ∧
    (1 ≤ (pyTrunc (SAMPLE_RATE * delay_ms / 1000)).toNat →
      ∀ i, (pyTrunc (SAMPLE_RATE * delay_ms / 1000)).toNat ≤ i → i < x.length →
        out.getD i 0 = x.getD i 0 +
          out.getD (i - (pyTrunc (SAMPLE_RATE * delay_ms / 1000)).toNat) 0 * decay) ∧
    ((pyTrunc (SAMPLE_RATE * delay_ms / 1000)).toNat = 0 →
      ∀ i, i < x.length → out.getD i 0 = x.getD i 0 * (1 + decay)) ∧
    (decay = 0 → out = x) := by
  rw [reverb_simple] at hout
  by_cases hneg : pyTrunc (SAMPLE_RATE * delay_ms / 1000) < 0
  · rw [if_pos hneg] at hout
    cases hout
  · rw [if_neg hneg, Option.some_inj] at hout
    subst hout
    refine ⟨fun i hi => reverbOut_getD_front x decay _ i hi, fun hD i hDi hi => ?_,
      fun hD0 i hi => ?_, fun h0 => ?_⟩
    · have h := reverbOut_getD x decay _ i hDi hi
      rwa [if_neg (by omega)] at h
    · have h := reverbOut_getD x decay ((pyTrunc (SAMPLE_RATE * delay_ms / 1000)).toNat) i
        (by omega) hi
      rw [if_pos hD0] at h
      rw [h]
      ring
    · subst h0
      exact reverbFold_zero_decay _ _ _

/-- Witness for C4 at x = [1, 0, 0], decay = 1/2, one-sample delay,
where sample 1 satisfies the recurrence, and at x = [1], decay = 1,
delay 1/100 ms (zero samples), where the output obeys
input * (1 + decay). -/
theorem reverb_recurrence_spec_witness :
    (reverb_simple [1, 0, 0] (1/2) (1000/44100) = some [1, 1/2, 1/4] ∧
      ([1, 1/2, 1/4] : List ℚ).getD 1 0 =
        ([1, 0, 0] : List ℚ).getD 1 0 + ([1, 1/2, 1/4] : List ℚ).getD 0 0 * (1/2)) ∧
    (reverb_simple [1] 1 (1/100) = some [2] ∧
      ([2] : List ℚ).getD 0 0 = ([1] : List ℚ).getD 0 0 * (1 + 1)) := by
  have hDz : pyTrunc (SAMPLE_RATE * (1000/44100) / 1000) = 1 := by
    rw [SAMPLE_RATE, pyTrunc, if_pos (by norm_num)]
    have : ⌊(44100 : ℚ) * (1000/44100) / 1000⌋ = 1 := by norm_num
    rw [this]
  have hsome : reverb_simple [1, 0, 0] (1/2) (1000/44100) = some [1, 1/2, 1/4] := by
    rw [reverb_simple, hDz, if_neg (by norm_num)]
    norm_num [reverbOut, List.range', reverbStep]
  have hDz0 : pyTrunc (SAMPLE_RATE * (1/100) / 1000) = 0 := by
    rw [SAMPLE_RATE, pyTrunc, if_pos (by norm_num)]
    norm_num
  have hsome0 : reverb_simple [1] 1 (1/100) = some [2] := by
    rw [reverb_simple, hDz0, if_neg (by norm_num)]
    norm_num [reverbOut, List.range', reverbStep]
  refine ⟨⟨hsome, ?_⟩, hsome0, ?_⟩
  · have h := (reverb_recurrence_spec [1, 0, 0] (1/2) (1000/44100) [1, 1/2, 1/4] hsome).2.1
      (by rw [hDz]; norm_num) 1 (by rw [hDz]; norm_num) (by norm_num)
    simpa [hDz] using h
  · have h := (reverb_recurrence_spec [1] 1 (1/100) [2] hsome0).2.2.1
      (by rw [hDz0]; norm_num) 0 (by norm_num)
    simpa using h

/-! Claim C9 — boundedness of the comb reverb for 0 <= decay < 1. -/

theorem reverbOut_abs_bound (x : List ℚ) (decay : ℚ) (D : ℕ)
    (h0 : 0 ≤ decay) (h1 : decay < 1) (i : ℕ) :
    |(reverbOut x decay D).getD i 0| ≤ maxAbs x / (1 - decay) := by
  have hden : (0 : ℚ) < 1 - decay := by linarith
  have hQ : maxAbs x / (1 - decay) * (1 - decay) = maxAbs x :=
    div_mul_cancel₀ _ hden.ne'
  have hMnn := maxAbs_nonneg x
  have hQnn : 0 ≤ maxAbs x / (1 - decay) := div_nonneg hMnn hden.le
  have hQd : 0 ≤ maxAbs x / (1 - decay) * decay := mul_nonneg hQnn h0
  have hQ' : maxAbs x / (1 - decay) - maxAbs x / (1 - decay) * decay = maxAbs x := by
    calc maxAbs x / (1 - decay) - maxAbs x / (1 - decay) * decay
        = maxAbs x / (1 - decay) * (1 - decay) := by ring
      _ = maxAbs x := hQ
  induction i using Nat.strong_induction_on with
  | _ i ih =>
    by_cases hlen : i < x.length
    · by_cases hD : i < D
      · rw [reverbOut_getD_front x decay D i hD]
        linarith [getD_abs_le_maxAbs x i]
      · push_neg at hD
        by_cases hD0 : D = 0
        · have h := reverbOut_getD x decay D i hD hlen
          rw [if_pos hD0] at h
          rw [h]
          have hxi := getD_abs_le_maxAbs x i
          have step1 : |x.getD i 0 + x.getD i 0 * decay| ≤ maxAbs x * (1 + decay) := by
            have hfac : x.getD i 0 + x.getD i 0 * decay = x.getD i 0 * (1 + decay) := by
              ring
            rw [hfac, abs_mul, abs_of_nonneg (by linarith : (0:ℚ) ≤ 1 + decay)]
            exact mul_le_mul_of_nonneg_right hxi (by linarith)
          have step2 : maxAbs x * (1 + decay) ≤ maxAbs x / (1 - decay) := by
            rw [le_div_iff₀ hden]
            nlinarith [mul_nonneg hMnn (sq_nonneg decay)]
          linarith
        · have h := reverbOut_getD x decay D i hD hlen
          rw [if_neg hD0] at h
          rw [h]
          have hrec := ih (i - D) (by omega)
          have habs : |x.getD i 0 + (reverbOut x decay D).getD (i - D) 0 * decay| ≤
              |x.getD i 0| + |(reverbOut x decay D).getD (i - D) 0| * decay := by
            calc |x.getD i 0 + (reverbOut x decay D).getD (i - D) 0 * decay| ≤
                |x.getD i 0| + |(reverbOut x decay D).getD (i - D) 0 * decay| :=
                  abs_add _ _
              _ = |x.getD i 0| + |(reverbOut x decay D).getD (i - D) 0| * decay := by
                  rw [abs_mul, abs_of_nonneg h0]
          have hmul : |(reverbOut x decay D).getD (i - D) 0| * decay ≤
              maxAbs x / (1 - decay) * decay :=
            mul_le_mul_of_nonneg_right hrec h0
          linarith [getD_abs_le_maxAbs x i]
    · push_neg at hlen
      rw [List.getD_eq_default _ _ (by rw [length_reverbOut]; exact hlen)]
      rw [abs_zero]
      positivity

/-- C9: whenever reverb_simple returns a signal and 0 <= decay < 1,
every output sample is bounded in absolute value by
max |input| / (1 - decay). -/
theorem reverb_simple_bounded (x : List ℚ) (decay delay_ms : ℚ) (out : List ℚ)
    (hout : reverb_simple x decay delay_ms = some out)
    (h0 : 0 ≤ decay) (h1 : decay < 1) (i : ℕ) :
    |out.getD i 0| ≤ maxAbs x / (1 - decay) := by
  rw [reverb_simple] at hout
  by_cases hneg : pyTrunc (SAMPLE_RATE * delay_ms / 1000) < 0
  · rw [if_pos hneg] at hout
    cases hout
  · rw [if_neg hneg, Option.some_inj] at hout
    subst hout
    exact reverbOut_abs_bound x decay _ h0 h1 i

/-- Witness for C9 at x = [1, 0], decay = 1/2, one-sample delay:
the output is [1, 1/2] and its sample 1 is bounded by
maxAbs [1, 0] / (1 - 1/2). -/
theorem reverb_simple_bounded_witness :
    reverb_simple [1, 0] (1/2) (1000/44100) = some [1, 1/2] ∧
      (0 : ℚ) ≤ 1/2 ∧ (1/2 : ℚ) < 1 ∧
      |([1, 1/2] : List ℚ).getD 1 0| ≤ maxAbs [1, 0] / (1 - 1/2) := by
  have hDz : pyTrunc (SAMPLE_RATE * (1000/44100) / 1000) = 1 := by
    rw [SAMPLE_RATE, pyTrunc, if_pos (by norm_num)]
    have : ⌊(44100 : ℚ) * (1000/44100) / 1000⌋ = 1 := by norm_num
    rw [this]
  have hsome : reverb_simple [1, 0] (1/2) (1000/44100) = some [1, 1/2] := by
    rw [reverb_simple, hDz, if_neg (by norm_num)]
    norm_num [reverbOut, List.range', reverbStep]
  exact ⟨hsome, by norm_num, by norm_num,
    reverb_simple_bounded [1, 0] (1/2) (1000/44100) [1, 1/2] hsome
      (by norm_num) (by norm_num) 1⟩

/-! Claim C8 — the two pink-noise implementations are not extensionally
equal: they differ on the white buffer [1, 0, 0, 0]. -/

theorem irfft_getD_zero (X : List ℂ) (n : ℕ) (hn : 0 < n) :
    (irfft X n).getD 0 0 = (∑ k ∈ Finset.range n, fullSpectrum X n k).re / (n : ℝ) := by
  rw [irfft, getD_map_range _ _ hn]
  norm_num

theorem rfftBin_impulse_zero : rfftBin [1, 0, 0, 0] 0 = 1 := by
  have hlen : ([1, 0, 0, 0] : List ℝ).length = 4 := rfl
  rw [rfftBin, hlen]
  rw [Finset.sum_range_succ, Finset.sum_range_succ, Finset.sum_range_succ,
    Finset.sum_range_succ, Finset.sum_range_zero]
  rw [show ([1, 0, 0, 0] : List ℝ).getD 0 0 = 1 from rfl,
    show ([1, 0, 0, 0] : List ℝ).getD 1 0 = 0 from rfl,
    show ([1, 0, 0, 0] : List ℝ).getD 2 0 = 0 from rfl,
    show ([1, 0, 0, 0] : List ℝ).getD 3 0 = 0 from rfl]
  simp

/-- On any length-4 white buffer the two pink shapings differ at sample
0 by exactly Re(rfft bin 0) / 4: all non-zero-frequency contributions
cancel, leaving only the differently handled zero-frequency bin. -/
theorem pink_diff_at_zero (w : List ℝ) (hw : w.length = 4) :
    (pinkNoiseSfx w).getD 0 0 - (pinkNoiseSnow w).getD 0 0 = (rfftBin w 0).re / 4 := by
  have h3 : (4 : ℕ) / 2 + 1 = 3 := by norm_num
  rw [pinkNoiseSfx, pinkNoiseSnow, hw, h3]
  rw [irfft_getD_zero _ 4 (by norm_num), irfft_getD_zero _ 4 (by norm_num)]
  have hc4 : ((4 : ℕ) : ℝ) = 4 := by norm_num
  rw [hc4, div_sub_div_same, ← Complex.sub_re]
  congr 2
  have hfs : ∀ L : List ℂ, fullSpectrum L 4 0 = L.getD 0 0 ∧
      fullSpectrum L 4 1 = L.getD 1 0 ∧ fullSpectrum L 4 2 = L.getD 2 0 ∧
      fullSpectrum L 4 3 = (starRingEnd ℂ) (L.getD 1 0) := by
    intro L
    refine ⟨?_, ?_, ?_, ?_⟩ <;> rw [fullSpectrum] <;> norm_num
  obtain ⟨h1s, h2s, h3s, h4s⟩ :=
    hfs (List.map (fun k => rfftBin w k * (pinkFilterSfx 4 k : ℂ)) (List.range 3))
  obtain ⟨h1n, h2n, h3n, h4n⟩ :=
    hfs (List.map (fun k => rfftBin w k * (pinkFilterSnow 4 k : ℂ)) (List.range 3))
  rw [Finset.sum_range_succ, Finset.sum_range_succ, Finset.sum_range_succ,
    Finset.sum_range_succ, Finset.sum_range_zero,
    Finset.sum_range_succ, Finset.sum_range_succ, Finset.sum_range_succ,
    Finset.sum_range_succ, Finset.sum_range_zero]
  rw [h1s, h2s, h3s, h4s, h1n, h2n, h3n, h4n]
  rw [getD_map_range _ _ (by norm_num : (0:ℕ) < 3),
    getD_map_range _ _ (by norm_num : (1:ℕ) < 3),
    getD_map_range _ _ (by norm_num : (2:ℕ) < 3),
    getD_map_range _ _ (by norm_num : (0:ℕ) < 3),
    getD_map_range _ _ (by norm_num : (1:ℕ) < 3),
    getD_map_range _ _ (by norm_num : (2:ℕ) < 3)]
  have hf1 : pinkFilterSnow 4 1 = pinkFilterSfx 4 1 := by
    rw [pinkFilterSfx, pinkFilterSnow]
    norm_num
  have hf2 : pinkFilterSnow 4 2 = pinkFilterSfx 4 2 := by
    rw [pinkFilterSfx, pinkFilterSnow]
    norm_num
  have hc0s : pinkFilterSfx 4 0 = 1 := by
    rw [pinkFilterSfx]
    simp
  have hc0n : pinkFilterSnow 4 0 = 0 := by
    rw [pinkFilterSnow]
    simp
  rw [hf1, hf2, hc0s, hc0n, Complex.ofReal_one, Complex.ofReal_zero]
  ring

/-- C8: the pink-noise spectral shaping of generate_sfx.py (DC scale
kept at 1) and that of generate_snow_footstep.py (DC scale set to 0)
produce different outputs on the white buffer [1, 0, 0, 0]: the outputs
differ at sample 0 by 1/4. -/
theorem pink_noise_implementations_differ :
    pinkNoiseSfx [1, 0, 0, 0] ≠ pinkNoiseSnow [1, 0, 0, 0] := by
  intro hcontra
  have hdiff := pink_diff_at_zero [1, 0, 0, 0] rfl
  rw [hcontra, rfftBin_impulse_zero, sub_self] at hdiff
  rw [Complex.one_re] at hdiff
  norm_num at hdiff

end Sfx
